import Mathlib

/-!
Verification of the HyperIT / IT-Hyperscanning information-theory engine
(`HyperIT/it.py` and `IT-Hyperscanning/it.py`).

The development shallowly embeds the parts of the code that the checked
properties concern:

* the matrix-assembly double loop of `HyperIT.compute_mi` / `compute_te`
  (skip and mirror rules, the two TE matrices);
* the tensor-allocation shapes of `compute_mi` / `compute_te`;
* the ROI setter (`HyperIT.roi`) with its structure, group-count,
  cardinality and name-lookup error paths, as a state transformer;
* the channel-name normalisation of `HyperIT.__check_data`;
* the Freedman-Diaconis bin rule `calc_fd_bins`;
* the histogram MI estimator `HyperIT.__mi_hist`;
* the count loop of the symbolic MI estimator `HyperIT.__mi_symb`.

Signals are idealised with exact rational sample values; the real-valued
steps (the cube root in the Freedman-Diaconis rule, `log2` in entropies)
are modelled over `ℝ`.
-/

namespace HyperIT

/-! ## Matrix assembly engine (`compute_mi` / `compute_te` double loop)

`compute_mi` and `compute_te` fill numpy tensors inside
`for i in range(loop_range): for j in range(loop_range):`.  We model the
tensor as a total function `ℕ → ℕ → α` (an entry `α` stands for the whole
`[epoch, statistic]` block written by one `self.mi_matrix[i, j] = ...`
assignment), updated by a fold over the row-major list of index pairs. -/

/-- Point update of a matrix represented as a total function. -/
def upd {α : Type*} (M : ℕ → ℕ → α) (i j : ℕ) (v : α) : ℕ → ℕ → α :=
  fun a b => if a = i ∧ b = j then v else M a b

/-- Row-major list of the index pairs `(i, j)` visited by the nested
`for i in range(n): for j in range(n):` loops. -/
def loopPairs (n : ℕ) : List (ℕ × ℕ) :=
  (List.range n).flatMap (fun i => (List.range n).map (fun j => (i, j)))

/-- `np.array_equal(data1, data2)` decides intra- vs inter-brain analysis:
`self._inter_brain = not np.array_equal(data1, data2)` (it.py line 58). -/
def interBrain (d1 d2 : List (List ℚ)) : Bool := d1 ≠ d2

/-- Channel extraction: `self._data1[i, :]` (row `i` of the retained data). -/
def chanOf (d : List (List ℚ)) (i : ℕ) : List ℚ := d.getD i []

/-- One iteration of the `compute_mi` fill loop (it.py lines 713-732):
when `self._inter_brain or i != j`, the pair estimate is written to
`mi_matrix[i, j]`, and for intra-brain analysis the mirror entry
`mi_matrix[j, i]` is set to the same value. -/
def miStep {α : Type*} (inter : Bool) (est : ℕ → ℕ → α)
    (M : ℕ → ℕ → α) (p : ℕ × ℕ) : ℕ → ℕ → α :=
  if inter ∨ p.1 ≠ p.2 then
    let M1 := upd M p.1 p.2 (est p.1 p.2)
    if !inter then upd M1 p.2 p.1 (est p.1 p.2) else M1
  else M

/-- The matrix produced by the `compute_mi` double loop, starting from the
`np.zeros` fill `dflt`.  `est i j` stands for the scalar block returned by
the selected estimator (`__mi_hist`, `__mi_symb` or `__estimate_it`) on the
extracted pair `(s1, s2)`. -/
def computeMiFill {α : Type*} (inter : Bool) (est : ℕ → ℕ → α)
    (n : ℕ) (dflt : α) : ℕ → ℕ → α :=
  (loopPairs n).foldl (miStep inter est) (fun _ _ => dflt)

/-- `compute_mi` on signals `d1`, `d2`: the inter/intra flag is derived from
the data as in the constructor, the loop range is the channel count. -/
def computeMi {α : Type*} (d1 d2 : List (List ℚ))
    (f : List ℚ → List ℚ → α) (dflt : α) : ℕ → ℕ → α :=
  computeMiFill (interBrain d1 d2)
    (fun i j => f (chanOf d1 i) (chanOf d2 j)) d1.length dflt

/-- One iteration of the `compute_te` fill loop (it.py lines 772-787):
`te_matrix_xy[i, j] = __estimate_it(s1, s2)` for every eligible pair, and
`te_matrix_yx[i, j] = __estimate_it(s2, s1)` only when inter-brain. -/
def teStep {α : Type*} (inter : Bool) (estXY estYX : ℕ → ℕ → α)
    (Ms : (ℕ → ℕ → α) × (ℕ → ℕ → α)) (p : ℕ × ℕ) :
    (ℕ → ℕ → α) × (ℕ → ℕ → α) :=
  if inter ∨ p.1 ≠ p.2 then
    (upd Ms.1 p.1 p.2 (estXY p.1 p.2),
     if inter then upd Ms.2 p.1 p.2 (estYX p.1 p.2) else Ms.2)
  else Ms

/-- The pair of matrices produced by the `compute_te` double loop:
`f s1 s2` stands for `__estimate_it(s1, s2)` on the extracted channels. -/
def computeTe {α : Type*} (d1 d2 : List (List ℚ))
    (f : List ℚ → List ℚ → α) (dflt : α) :
    (ℕ → ℕ → α) × (ℕ → ℕ → α) :=
  (loopPairs d1.length).foldl
    (teStep (interBrain d1 d2)
      (fun i j => f (chanOf d1 i) (chanOf d2 j))
      (fun i j => f (chanOf d2 j) (chanOf d1 i)))
    (fun _ _ => dflt, fun _ _ => dflt)

/-! ## Tensor allocation shapes (`compute_mi` lines 700-711, `compute_te`
line 768) -/

/-- Whether the selected MI estimator supports JIDT significance testing:
`__which_mi_estimator` forces `self.calc_sigstats = False` for the
histogram and symbolic estimators (it.py lines 422-451); every other
estimator keeps the caller's flag. -/
def miSupportsSigstats (estimatorType : String) : Bool :=
  !(estimatorType == "histogram" || estimatorType == "symbolic")

/-- Allocation shape of `self.mi_matrix` (it.py lines 702-706):
`(n_chan, n_chan, n_epo, 1)` for the histogram/symbolic estimators, else
`(n_chan, n_chan, n_epo, 4)` at scale 1 and
`(soi_groups, soi_groups, n_epo, 4)` otherwise.  `calcSigstats` is the
caller's flag; the allocation does not consult it. -/
def miMatrixShape (estimatorType : String) (calcSigstats : Bool)
    (scaleOfOrganisation nChan soiGroups nEpo : ℕ) : ℕ × ℕ × ℕ × ℕ :=
  if estimatorType == "histogram" || estimatorType == "symbolic" then
    (nChan, nChan, nEpo, 1)
  else if scaleOfOrganisation == 1 then
    (nChan, nChan, nEpo, 4)
  else
    (soiGroups, soiGroups, nEpo, 4)

/-- Allocation shape of `self.te_matrix_xy` / `self.te_matrix_yx`
(it.py line 768); the last dimension is always 4. -/
def teMatrixShape (calcSigstats : Bool)
    (scaleOfOrganisation nChan soiGroups nEpo : ℕ) : ℕ × ℕ × ℕ × ℕ :=
  if scaleOfOrganisation == 1 then
    (nChan, nChan, nEpo, 4)
  else
    (soiGroups, soiGroups, nEpo, 4)

/-- The length of the statistic (fourth) dimension of a result tensor. -/
def statDim (shape : ℕ × ℕ × ℕ × ℕ) : ℕ := shape.2.2.2

/-- `loop_range = self.n_chan if self._scale_of_organisation == 1 else
self._soi_groups` (it.py lines 711 and 770). -/
def loopRange (scaleOfOrganisation nChan soiGroups : ℕ) : ℕ :=
  if scaleOfOrganisation == 1 then nChan else soiGroups

/-! ## Channel-name validation (`HyperIT.__check_data`, it.py lines
284-311) -/

/-- A Python value, as far as the channel-name checks inspect one: a string
or a (nested) list. -/
inductive PyObj where
  | str : String → PyObj
  | list : List PyObj → PyObj

/-- `isinstance(x, list)`. -/
def PyObj.isList : PyObj → Bool
  | .list _ => true
  | _ => false

/-- `isinstance(x[0], str)` for a nonempty list (the constructor is only
reached with nonempty channel-name input; on `[]` CPython would raise
`IndexError` instead). -/
def PyObj.firstIsStr : PyObj → Bool
  | .list (PyObj.str _ :: _) => true
  | _ => false

/-- `isinstance(x[0], list)` for a nonempty list. -/
def PyObj.firstIsList : PyObj → Bool
  | .list (PyObj.list _ :: _) => true
  | _ => false

/-- `len(x)`. -/
def PyObj.pyLen : PyObj → ℕ
  | .list xs => xs.length
  | .str s => s.length

def channelNamesTypeErrorMsg : String :=
  "Channel names must be a list of strings or a list of lists of strings for inter-brain analysis."

def channelCountErrorMsg : String :=
  "The number of channels in time-series data does not match the length of channel_names."

/-- The channel-name handling of `__check_data` (it.py lines 293-308):
reject when the names are not a list, or when their first member is a bare
string; for intra-brain input whose first member is a list, duplicate with
`self._channel_names = [self._channel_names] * 2` (note: the whole wrapper
is duplicated, not its inner sequence); finally require every member's
length to equal the channel count of the data.  Returns the channel-name
structure the object stores. -/
def checkChannelNames (interBrain : Bool) (cn : PyObj) (nChannels : ℕ) :
    Except String PyObj :=
  match cn with
  | .str _ => .error channelNamesTypeErrorMsg
  | .list ms =>
    if cn.firstIsStr then
      .error channelNamesTypeErrorMsg
    else
      let members := if !interBrain && cn.firstIsList then [cn, cn] else ms
      if members.any (fun m => m.pyLen != nChannels) then
        .error channelCountErrorMsg
      else
        .ok (.list members)

/-! ## Region-of-interest setter (`HyperIT.roi`, it.py lines 109-195)

The setter mutates object fields in program order and raises `ValueError`
part-way through on invalid input.  It is modelled as a state transformer
returning the raised error (if any) together with the object state at the
moment of the raise — exactly what the Python object holds afterwards. -/

/-- An element of an ROI specification: an EEG channel name or a raw
integer index. -/
inductive RItem where
  | name : String → RItem
  | idx : ℕ → RItem
deriving DecidableEq

/-- A member of one ROI half: a bare item (pointwise form) or a group of
items (grouped form). -/
inductive RNode where
  | item : RItem → RNode
  | group : List RItem → RNode
deriving DecidableEq

/-- Converted channel indices as stored in `_channel_indices1/2`: a flat
index list (pointwise) or a list of index groups (grouped). -/
inductive Idxs where
  | flat : List ℕ → Idxs
  | grouped : List (List ℕ) → Idxs
deriving DecidableEq

/-- The flat index list used when the pointwise branch subsets the data
(`self._data1[self._channel_indices1, :]`).  In the pointwise branch the
conversion yields a flat list except for the degenerate all-empty ROI,
which converts to `grouped []` and selects nothing. -/
def Idxs.flatList : Idxs → List ℕ
  | .flat l => l
  | .grouped gs => gs.flatten

/-- The ROI-related state of a `HyperIT` object. -/
structure RoiState where
  channelNames1 : List String
  channelNames2 : List String
  data1 : List ℤ
  data2 : List ℤ
  nChan : ℕ
  roi : List Idxs
  roiSpecified : Bool
  scaleOfOrganisation : ℕ
  soiGroups : Option ℕ
  initialiseParameter : Option (ℕ × ℕ)
  channelIndices1 : Idxs
  channelIndices2 : Idxs
deriving DecidableEq

/-- The `ValueError`s the setter can raise. -/
inductive RoiError where
  | unrecognisedStructure
  | groupCountMismatch
  | groupCardinality
  | unknownChannelName
deriving DecidableEq

/-- `isinstance(sublist, list) and not any(isinstance(item, list) for item
in sublist)` for one half (it.py line 134). -/
def halfIsPointwise (h : List RNode) : Bool :=
  h.all fun nd => match nd with
    | .item _ => true
    | .group _ => false

/-- `isinstance(sublist, list) and all(isinstance(item, list) for item in
sublist)` for one half (it.py line 140). -/
def halfIsGrouped (h : List RNode) : Bool :=
  h.all fun nd => match nd with
    | .item _ => false
    | .group _ => true

/-- `group_lengths = [len(group) for half in roi_list for group in half]`
(it.py line 147); in the grouped branch every member is a group. -/
def groupLens (h1 h2 : List RNode) : List ℕ :=
  (h1 ++ h2).map fun nd => match nd with
    | .group g => g.length
    | .item _ => 1

/-- `channel_names.index(name)` — `ValueError` when the name is absent;
raw integer indices pass through unchanged. -/
def lookupItem (channelNames : List String) : RItem → Except RoiError ℕ
  | .idx n => .ok n
  | .name s =>
    match channelNames.findIdx? (· == s) with
    | some i => .ok i
    | none => .error .unknownChannelName

/-- `__convert_names_to_indices` (it.py lines 199-225) on the list-shaped
halves the setter passes: when every member is a group, convert group by
group, else convert the flat list.  A mixed half never reaches this point
(the setter raises the structure error first); the fallback arms keep the
function total. -/
def convertHalf (channelNames : List String) (h : List RNode) :
    Except RoiError Idxs :=
  if h.all (fun nd => match nd with | .group _ => true | .item _ => false) then do
    let gs ← h.mapM fun nd => match nd with
      | .group g => g.mapM (lookupItem channelNames)
      | .item it => do return [← lookupItem channelNames it]
    return .grouped gs
  else do
    let l ← h.mapM fun nd => match nd with
      | .item it => lookupItem channelNames it
      | .group _ => .error .unrecognisedStructure
    return .flat l

/-- The conversion / subsetting / storing tail of the setter (it.py lines
163-181), entered once the scale of organisation has been determined:
convert each half (a name-lookup failure raises, leaving the first half's
indices stored when the second fails); in the pointwise case subset the
retained data to the selected rows and update `n_chan`; finally store
`self._roi = [indices1, indices2]`. -/
def setRoiConvert (s : RoiState) (half1 half2 : List RNode) :
    Option RoiError × RoiState :=
  match convertHalf s.channelNames1 half1 with
  | .error e => (some e, s)
  | .ok idx1 =>
    let s1 : RoiState := { s with channelIndices1 := idx1 }
    match convertHalf s1.channelNames2 half2 with
    | .error e => (some e, s1)
    | .ok idx2 =>
      let s2 : RoiState := { s1 with channelIndices2 := idx2 }
      let s3 : RoiState :=
        if s2.scaleOfOrganisation == 1 then
          { s2 with
            data1 := idx1.flatList.map fun i => s2.data1.getD i 0,
            data2 := idx2.flatList.map fun i => s2.data2.getD i 0,
            nChan := idx1.flatList.length }
        else s2
      (none, { s3 with roi := [idx1, idx2] })

/-- The `roi` property setter (it.py lines 114-181).  `_roi_specified` is
set before any validation; the grouped branch stores `_soi_groups` before
the cardinality check, determines the scale from the first group's length
(`len(set(group_lengths)) == 1` required), and records the initialise
parameter; unrecognised nesting and mismatched group counts raise. -/
def setRoi (s : RoiState) (half1 half2 : List RNode) :
    Option RoiError × RoiState :=
  let s1 : RoiState := { s with roiSpecified := true }
  if halfIsPointwise half1 && halfIsPointwise half2 then
    setRoiConvert { s1 with scaleOfOrganisation := 1 } half1 half2
  else if halfIsGrouped half1 && halfIsGrouped half2 then
    if half1.length == half2.length then
      let s2 : RoiState := { s1 with soiGroups := some half1.length }
      match groupLens half1 half2 with
      | [] => (some .groupCardinality, s2)
      | l :: ls =>
        if ls.all (· == l) then
          setRoiConvert
            { s2 with scaleOfOrganisation := l, initialiseParameter := some (l, l) }
            half1 half2
        else (some .groupCardinality, s2)
    else (some .groupCountMismatch, s1)
  else (some .unrecognisedStructure, s1)

/-- A concrete 6-channel intra-brain starting state (fresh construction,
no ROI yet). -/
def roiExampleState : RoiState where
  channelNames1 := ["A", "B", "C", "D", "E", "F"]
  channelNames2 := ["A", "B", "C", "D", "E", "F"]
  data1 := [10, 11, 12, 13, 14, 15]
  data2 := [10, 11, 12, 13, 14, 15]
  nChan := 6
  roi := []
  roiSpecified := false
  scaleOfOrganisation := 1
  soiGroups := none
  initialiseParameter := none
  channelIndices1 := .flat [0, 1, 2, 3, 4, 5]
  channelIndices2 := .flat [0, 1, 2, 3, 4, 5]

/-- The grouped ROI half `[[1, 2], [3]]` (mismatched group sizes). -/
def roiBadCardHalf1 : List RNode := [.group [.idx 1, .idx 2], .group [.idx 3]]

/-- The grouped ROI half `[[4, 5], [6]]`. -/
def roiBadCardHalf2 : List RNode := [.group [.idx 4, .idx 5], .group [.idx 6]]

/-! ## Symbolic-estimator count loop (`HyperIT.__mi_symb`, it.py lines
396-407; `entropy_symb`, IT-Hyperscanning it.py lines 267-285) -/

/-- `dict_[key] = dict_.get(key, 0) + 1` on a count table. -/
def incrCount {κ : Type} [DecidableEq κ] (d : κ → ℕ) (k : κ) : κ → ℕ :=
  fun a => if a = k then d a + 1 else d a

/-- One iteration of the count loop at sample index `i`: increment the
joint, X-marginal and Y-marginal counts of the hash values at `i`. -/
def symbCountStep (hx hy : List ℤ)
    (acc : (ℤ × ℤ → ℕ) × (ℤ → ℕ) × (ℤ → ℕ)) (i : ℕ) :
    (ℤ × ℤ → ℕ) × (ℤ → ℕ) × (ℤ → ℕ) :=
  (incrCount acc.1 (hx.getD i 0, hy.getD i 0),
   incrCount acc.2.1 (hx.getD i 0),
   incrCount acc.2.2 (hy.getD i 0))

/-- The empirical distributions (as raw counts) built by `__mi_symb` over
the per-window ordinal-pattern hash sequences `symbol_hash_X` and
`symbol_hash_Y`: the loop runs `for i in range(len(symbol_hash_X) - 1)`. -/
def symbCounts (hx hy : List ℤ) : (ℤ × ℤ → ℕ) × (ℤ → ℕ) × (ℤ → ℕ) :=
  (List.range (hx.length - 1)).foldl (symbCountStep hx hy)
    (fun _ => 0, fun _ => 0, fun _ => 0)

/-- The same count tables built over every hash value of the inputs. -/
def symbCountsAll (hx hy : List ℤ) : (ℤ × ℤ → ℕ) × (ℤ → ℕ) × (ℤ → ℕ) :=
  (List.range hx.length).foldl (symbCountStep hx hy)
    (fun _ => 0, fun _ => 0, fun _ => 0)

/-! ## Freedman-Diaconis bin rule (`calc_fd_bins`, HyperIT it.py lines
334-341; IT-Hyperscanning it.py lines 58-63)

Sample values are idealised as rationals; the only irrational step, the
cube root `len(X)**(-1/3)`, is modelled over `ℝ`. -/

def listMax : List ℚ → ℚ
  | [] => 0
  | x :: xs => xs.foldl max x

def listMin : List ℚ → ℚ
  | [] => 0
  | x :: xs => xs.foldl min x

/-- `np.ptp(X)`: maximum minus minimum. -/
def ptp (X : List ℚ) : ℚ := listMax X - listMin X

def insertSorted (x : ℚ) : List ℚ → List ℚ
  | [] => [x]
  | y :: ys => if x ≤ y then x :: y :: ys else y :: insertSorted x ys

def sortQ (X : List ℚ) : List ℚ := X.foldr insertSorted []

/-- `np.percentile(X, q)` with the default linear interpolation: index
`h = q (n-1) / 100` into the sorted data, interpolating between the two
neighbouring order statistics. -/
def percentile (X : List ℚ) (q : ℚ) : ℚ :=
  let a := sortQ X
  if a.length = 0 then 0
  else
    let h : ℚ := q * ((a.length : ℚ) - 1) / 100
    let lo : ℕ := (Int.floor h).toNat
    let frac : ℚ := h - Int.floor h
    let v0 := a.getD lo 0
    let v1 := a.getD (min (lo + 1) (a.length - 1)) 0
    v0 + frac * (v1 - v0)

/-- `scipy.stats.iqr(X)` with default parameters: the 75th minus the 25th
percentile. -/
def iqr (X : List ℚ) : ℚ := percentile X 75 - percentile X 25

/-- The divisor `2.0 * stats.iqr(X) * len(X)**(-1/3)` of the unguarded
division inside `calc_fd_bins`. -/
noncomputable def fdDenom (X : List ℚ) : ℝ :=
  2 * (iqr X : ℝ) * (X.length : ℝ) ^ (-(1 : ℝ) / 3)

/-- `np.ceil(np.ptp(X) / (2.0 * stats.iqr(X) * len(X)**(-1/3)))` for one
sequence. -/
noncomputable def fdBinsOne (X : List ℚ) : ℤ :=
  ⌈(ptp X : ℝ) / fdDenom X⌉

/-- `calc_fd_bins(X, Y)`: the per-sequence bin counts averaged, ceiled and
truncated to `int`. -/
noncomputable def calc_fd_bins (X Y : List ℚ) : ℤ :=
  ⌈((fdBinsOne X : ℝ) + (fdBinsOne Y : ℝ)) / 2⌉

/-! ## Histogram MI estimator (`HyperIT.__mi_hist`, it.py lines 331-365) -/

/-- `np.finfo(float).eps`. -/
def machineEps : ℚ := 1 / 2 ^ 52

/-- The bin index of value `v` among `b` equal-width bins spanning
`[lo, hi]` (numpy closes the last bin, so `v = hi` lands in bin `b - 1`;
all sample values lie in the range because the edges are computed from the
same samples). -/
def binIndex (lo hi : ℚ) (b : ℕ) (v : ℚ) : ℕ :=
  if hi = lo then b - 1
  else min (b - 1) (Int.toNat ⌊(v - lo) * b / (hi - lo)⌋)

/-- Entry `(i, j)` of `np.histogram2d(X, Y, bins=b)[0]`: the number of
sample pairs whose x falls in x-bin `i` and whose y falls in y-bin `j`,
each axis binned over its own range. -/
def jointHist (X Y : List ℚ) (b i j : ℕ) : ℕ :=
  (X.zip Y).countP fun p =>
    binIndex (listMin X) (listMax X) b p.1 == i &&
    binIndex (listMin Y) (listMax Y) b p.2 == j

/-- `np.sum(j_hist)`. -/
def jointTotal (X Y : List ℚ) (b : ℕ) : ℕ :=
  ∑ i ∈ Finset.range b, ∑ j ∈ Finset.range b, jointHist X Y b i j

/-- `pxy = j_hist / np.sum(j_hist)`. -/
def pxy (X Y : List ℚ) (b i j : ℕ) : ℚ :=
  (jointHist X Y b i j : ℚ) / (jointTotal X Y b : ℚ)

/-- `px = np.sum(pxy, axis=1)`. -/
def pxMarginal (X Y : List ℚ) (b i : ℕ) : ℚ :=
  ∑ j ∈ Finset.range b, pxy X Y b i j

/-- `py = np.sum(pxy, axis=0)`. -/
def pyMarginal (X Y : List ℚ) (b j : ℕ) : ℚ :=
  ∑ i ∈ Finset.range b, pxy X Y b i j

/-- One `p * log2(p + eps)` term of an entropy sum. -/
noncomputable def entTerm (p : ℚ) : ℝ :=
  (p : ℝ) * Real.logb 2 ((p : ℝ) + (machineEps : ℝ))

/-- `Hx = -np.sum(px * np.log2(px + eps))`. -/
noncomputable def entX (X Y : List ℚ) (b : ℕ) : ℝ :=
  -∑ i ∈ Finset.range b, entTerm (pxMarginal X Y b i)

/-- `Hy = -np.sum(py * np.log2(py + eps))`. -/
noncomputable def entY (X Y : List ℚ) (b : ℕ) : ℝ :=
  -∑ j ∈ Finset.range b, entTerm (pyMarginal X Y b j)

/-- `Hxy = -np.sum(pxy * np.log2(pxy + eps))`. -/
noncomputable def entXY (X Y : List ℚ) (b : ℕ) : ℝ :=
  -∑ i ∈ Finset.range b, ∑ j ∈ Finset.range b, entTerm (pxy X Y b i j)

/-- The per-epoch body of `__mi_hist`: `Hx + Hy - Hxy` with the joint
histogram built from `calc_fd_bins(X, Y)` bins. -/
noncomputable def miHistPair (X Y : List ℚ) : ℝ :=
  entX X Y (calc_fd_bins X Y).toNat + entY X Y (calc_fd_bins X Y).toNat
    - entXY X Y (calc_fd_bins X Y).toNat

/-- `__mi_hist` over epoched data: one MI value per epoch (the `pairwise`
result array). -/
noncomputable def miHist (s1 s2 : List (List ℚ)) : List ℝ :=
  (s1.zip s2).map fun p => miHistPair p.1 p.2

section LoopLemmas

variable {α : Type*}

theorem upd_self (M : ℕ → ℕ → α) (i j : ℕ) (v : α) : upd M i j v i j = v := by
  simp [upd]

theorem upd_other (M : ℕ → ℕ → α) {i j a b : ℕ} (v : α)
    (h : ¬(a = i ∧ b = j)) : upd M i j v a b = M a b := by
  simp [upd, h]

/-- The mirrored double update of the intra-brain branch keeps the matrix
symmetric. -/
theorem upd2_symm (M : ℕ → ℕ → α) {i j : ℕ} (hij : ¬i = j) (v : α)
    (hsym : ∀ a b, M a b = M b a) (a b : ℕ) :
    upd (upd M i j v) j i v a b = upd (upd M i j v) j i v b a := by
  have hji : ¬j = i := fun h => hij h.symm
  by_cases h1 : a = j ∧ b = i
  · obtain ⟨ha, hb⟩ := h1
    subst ha
    subst hb
    simp [upd, hij, hji]
  · by_cases h2 : a = i ∧ b = j
    · obtain ⟨ha, hb⟩ := h2
      subst ha
      subst hb
      simp [upd, hij, hji]
    · have h1s : ¬(b = i ∧ a = j) := fun h => h1 ⟨h.2, h.1⟩
      have h2s : ¬(b = j ∧ a = i) := fun h => h2 ⟨h.2, h.1⟩
      simp only [upd, if_neg h1, if_neg h2, if_neg h1s, if_neg h2s]
      exact hsym a b

/-- The mirrored double update of the intra-brain branch never touches the
diagonal. -/
theorem upd2_diag (M : ℕ → ℕ → α) {i j : ℕ} (hij : ¬i = j) (v : α) (a : ℕ) :
    upd (upd M i j v) j i v a a = M a a := by
  have h1 : ¬(a = j ∧ a = i) := fun h => hij (h.2.symm.trans h.1)
  have h2 : ¬(a = i ∧ a = j) := fun h => hij (h.1.symm.trans h.2)
  simp only [upd, if_neg h1, if_neg h2]

/-- Symmetry and untouched diagonal are invariants of the intra-brain
`compute_mi` fill step. -/
theorem miStep_invariant (est : ℕ → ℕ → α) (dflt : α)
    (M : ℕ → ℕ → α) (p : ℕ × ℕ)
    (hsym : ∀ a b, M a b = M b a) (hdiag : ∀ a, M a a = dflt) :
    (∀ a b, miStep false est M p a b = miStep false est M p b a) ∧
    (∀ a, miStep false est M p a a = dflt) := by
  obtain ⟨i, j⟩ := p
  by_cases hij : i = j
  · subst hij
    simp only [miStep]
    simp [hsym, hdiag]
  · have hred : miStep false est M (i, j) =
        upd (upd M i j (est i j)) j i (est i j) := by
      simp [miStep, hij]
    rw [hred]
    exact ⟨upd2_symm M hij _ hsym, fun a => (upd2_diag M hij _ a).trans (hdiag a)⟩

/-- Folding the intra-brain `compute_mi` step over any list of index pairs
preserves symmetry and the untouched diagonal. -/
theorem miFold_invariant (est : ℕ → ℕ → α) (dflt : α)
    (L : List (ℕ × ℕ)) (M : ℕ → ℕ → α)
    (hsym : ∀ a b, M a b = M b a) (hdiag : ∀ a, M a a = dflt) :
    (∀ a b, L.foldl (miStep false est) M a b = L.foldl (miStep false est) M b a) ∧
    (∀ a, L.foldl (miStep false est) M a a = dflt) := by
  induction L generalizing M with
  | nil => exact ⟨hsym, hdiag⟩
  | cons p L ih =>
    obtain ⟨h1, h2⟩ := miStep_invariant est dflt M p hsym hdiag
    exact ih (miStep false est M p) h1 h2

theorem mem_loopPairs {n i j : ℕ} : (i, j) ∈ loopPairs n ↔ i < n ∧ j < n := by
  simp [loopPairs]

theorem teStep_xy_preserve {inter : Bool} (estXY estYX : ℕ → ℕ → α)
    (Ms : (ℕ → ℕ → α) × (ℕ → ℕ → α)) (p : ℕ × ℕ) {i j : ℕ}
    (h : Ms.1 i j = estXY i j) :
    (teStep inter estXY estYX Ms p).1 i j = estXY i j := by
  unfold teStep
  split
  · show upd Ms.1 p.1 p.2 (estXY p.1 p.2) i j = estXY i j
    by_cases hp : i = p.1 ∧ j = p.2
    · obtain ⟨h1, h2⟩ := hp
      subst h1
      subst h2
      exact upd_self _ _ _ _
    · rw [upd_other _ _ hp]
      exact h
  · exact h

theorem teStep_yx_preserve (estXY estYX : ℕ → ℕ → α)
    (Ms : (ℕ → ℕ → α) × (ℕ → ℕ → α)) (p : ℕ × ℕ) {i j : ℕ}
    (h : Ms.2 i j = estYX i j) :
    (teStep true estXY estYX Ms p).2 i j = estYX i j := by
  unfold teStep
  split
  · show (if (true : Bool) then upd Ms.2 p.1 p.2 (estYX p.1 p.2) else Ms.2) i j
        = estYX i j
    simp only [if_true]
    by_cases hp : i = p.1 ∧ j = p.2
    · obtain ⟨h1, h2⟩ := hp
      subst h1
      subst h2
      exact upd_self _ _ _ _
    · rw [upd_other _ _ hp]
      exact h
  · exact h

/-- Once both TE entries of a pair hold their estimates, further loop
iterations keep them (later writes at the same slot rewrite the same
value). -/
theorem teFold_preserve (estXY estYX : ℕ → ℕ → α) (L : List (ℕ × ℕ))
    (Ms : (ℕ → ℕ → α) × (ℕ → ℕ → α)) {i j : ℕ}
    (hx : Ms.1 i j = estXY i j) (hy : Ms.2 i j = estYX i j) :
    (L.foldl (teStep true estXY estYX) Ms).1 i j = estXY i j ∧
    (L.foldl (teStep true estXY estYX) Ms).2 i j = estYX i j := by
  induction L generalizing Ms with
  | nil => exact ⟨hx, hy⟩
  | cons p L ih =>
    exact ih _ (teStep_xy_preserve estXY estYX Ms p hx)
      (teStep_yx_preserve estXY estYX Ms p hy)

/-- With inter-brain analysis every pair is eligible, and the step writes
both directions. -/
theorem teStep_true_apply (estXY estYX : ℕ → ℕ → α)
    (Ms : (ℕ → ℕ → α) × (ℕ → ℕ → α)) (i j : ℕ) :
    teStep true estXY estYX Ms (i, j) =
      (upd Ms.1 i j (estXY i j), upd Ms.2 i j (estYX i j)) := by
  simp [teStep]

/-- In the inter-brain TE loop, every visited pair ends with both the
`X→Y` and the `Y→X` entries set to their estimates. -/
theorem teFold_inter_value (estXY estYX : ℕ → ℕ → α) (L : List (ℕ × ℕ))
    (Ms : (ℕ → ℕ → α) × (ℕ → ℕ → α)) {i j : ℕ} (hmem : (i, j) ∈ L) :
    (L.foldl (teStep true estXY estYX) Ms).1 i j = estXY i j ∧
    (L.foldl (teStep true estXY estYX) Ms).2 i j = estYX i j := by
  induction L generalizing Ms with
  | nil => cases hmem
  | cons p L ih =>
    rcases List.mem_cons.mp hmem with hp | hp
    · subst hp
      rw [List.foldl_cons, teStep_true_apply]
      exact teFold_preserve _ _ L _ (upd_self _ _ _ _) (upd_self _ _ _ _)
    · exact ih _ hp

/-- With intra-brain data the TE loop never writes the second matrix. -/
theorem teStep_intra_yx (estXY estYX : ℕ → ℕ → α)
    (Ms : (ℕ → ℕ → α) × (ℕ → ℕ → α)) (p : ℕ × ℕ) :
    (teStep false estXY estYX Ms p).2 = Ms.2 := by
  unfold teStep
  split <;> simp

theorem teFold_intra_yx (estXY estYX : ℕ → ℕ → α) (L : List (ℕ × ℕ))
    (Ms : (ℕ → ℕ → α) × (ℕ → ℕ → α)) :
    (L.foldl (teStep false estXY estYX) Ms).2 = Ms.2 := by
  induction L generalizing Ms with
  | nil => rfl
  | cons p L ih => rw [List.foldl_cons, ih, teStep_intra_yx]

end LoopLemmas

/-- C1.  For intra-source input (`data1` equal to `data2`, hence
`self._inter_brain` false) and any per-pair estimator, the matrix assembled
by `compute_mi` is symmetric — entry `[i, j]` equals entry `[j, i]` for all
`i`, `j` — and every diagonal entry `[i, i]` is never written, keeping the
`np.zeros` fill value. -/
theorem compute_mi_intra_symmetric_diag_default {α : Type*}
    (d1 d2 : List (List ℚ)) (f : List ℚ → List ℚ → α) (dflt : α)
    (h : d1 = d2) :
    (∀ i j, computeMi d1 d2 f dflt i j = computeMi d1 d2 f dflt j i) ∧
    (∀ i, computeMi d1 d2 f dflt i i = dflt) := by
  have hib : interBrain d1 d2 = false := by
    simp [interBrain, h]
  unfold computeMi computeMiFill
  rw [hib]
  exact miFold_invariant _ dflt (loopPairs d1.length) _
    (fun _ _ => rfl) (fun _ => rfl)

/-- Witness for C1 at a concrete intra-source input. -/
theorem compute_mi_intra_symmetric_diag_default_witness :
    computeMi [[(1 : ℚ), 2], [3, 4]] [[1, 2], [3, 4]]
        (fun a b => a.length + b.length) 0 0 1 =
      computeMi [[(1 : ℚ), 2], [3, 4]] [[1, 2], [3, 4]]
        (fun a b => a.length + b.length) 0 1 0 ∧
    computeMi [[(1 : ℚ), 2], [3, 4]] [[1, 2], [3, 4]]
        (fun a b => a.length + b.length) 0 1 1 = 0 :=
  ⟨(compute_mi_intra_symmetric_diag_default _ _ _ _ rfl).1 0 1,
   (compute_mi_intra_symmetric_diag_default _ _ _ _ rfl).2 1⟩

/-- C2.  `compute_te` on inter-source input (`data1` not equal to `data2`)
fills, for every pair `(i, j)` in loop range, both `te_matrix_xy[i, j]`
with the estimate on `(s1, s2)` and `te_matrix_yx[i, j]` with the estimate
on `(s2, s1)`; on intra-source input the `Y→X` computation is skipped for
every pair, so the second returned matrix keeps its `np.zeros` fill
everywhere. -/
theorem compute_te_directions {α : Type*} (d1 d2 : List (List ℚ))
    (f : List ℚ → List ℚ → α) (dflt : α) :
    (d1 ≠ d2 → ∀ i j, i < d1.length → j < d1.length →
      (computeTe d1 d2 f dflt).1 i j = f (chanOf d1 i) (chanOf d2 j) ∧
      (computeTe d1 d2 f dflt).2 i j = f (chanOf d2 j) (chanOf d1 i)) ∧
    (d1 = d2 → (computeTe d1 d2 f dflt).2 = fun _ _ => dflt) := by
  constructor
  · intro h i j hi hj
    have hib : interBrain d1 d2 = true := by
      simp [interBrain, h]
    unfold computeTe
    rw [hib]
    exact teFold_inter_value _ _ _ _ (mem_loopPairs.mpr ⟨hi, hj⟩)
  · intro h
    have hib : interBrain d1 d2 = false := by
      simp [interBrain, h]
    unfold computeTe
    rw [hib]
    exact teFold_intra_yx _ _ _ _

/-- Witness for C2: a concrete inter-source input where both directions are
filled, and a concrete intra-source input where the second matrix keeps the
zero fill. -/
theorem compute_te_directions_witness :
    ((computeTe [[(1 : ℚ)]] [[2]] (fun a b => (a, b)) ([], [])).1 0 0
        = ([(1 : ℚ)], [(2 : ℚ)]) ∧
     (computeTe [[(1 : ℚ)]] [[2]] (fun a b => (a, b)) ([], [])).2 0 0
        = ([(2 : ℚ)], [(1 : ℚ)])) ∧
    (computeTe [[(1 : ℚ)]] [[1]] (fun a b => (a, b)) ([], [])).2
        = fun _ _ => ([], []) :=
  ⟨(compute_te_directions [[(1 : ℚ)]] [[2]] (fun a b => (a, b)) ([], [])).1
      (by decide) 0 0 (by decide) (by decide),
   (compute_te_directions [[(1 : ℚ)]] [[1]] (fun a b => (a, b)) ([], [])).2 rfl⟩

/-- C4 counterexample: with the kernel estimator (which supports
significance testing) and `calc_sigstats = False`, the claim predicts a
statistic dimension of length 1, but `compute_mi` allocates
`np.zeros((n_chan, n_chan, n_epo, 4))` regardless of the flag. -/
theorem mi_stat_dim_ignores_sigstats_flag :
    ¬ statDim (miMatrixShape "kernel" false 1 3 0 2) = 1 := by decide

/-- C4 (amended).  The statistic dimension of the allocated result tensor
is 1 exactly for the estimators that do not support significance testing
(histogram and symbolic, MI only); for every other estimator — and for
every `compute_te` call — it is 4, regardless of whether the caller
enabled or disabled significance testing. -/
theorem mi_te_stat_dimension (estimatorType : String) (calcSigstats : Bool)
    (scaleOfOrganisation nChan soiGroups nEpo : ℕ) :
    statDim (miMatrixShape estimatorType calcSigstats
        scaleOfOrganisation nChan soiGroups nEpo)
      = (if miSupportsSigstats estimatorType then 4 else 1) ∧
    statDim (teMatrixShape calcSigstats
        scaleOfOrganisation nChan soiGroups nEpo) = 4 := by
  constructor
  · by_cases h : (estimatorType == "histogram" || estimatorType == "symbolic")
    · simp [miMatrixShape, statDim, miSupportsSigstats, h]
    · by_cases h2 : (scaleOfOrganisation == 1) <;>
        simp [miMatrixShape, statDim, miSupportsSigstats, h, h2]
  · by_cases h2 : (scaleOfOrganisation == 1) <;>
      simp [teMatrixShape, statDim, h2]

/-- C10.  With a grouped ROI active (scale of organisation above 1) and the
histogram or symbolic estimator, `compute_mi` allocates the result tensor
with unit dimensions equal to the retained channel count, while the fill
loop ranges over group indices; whenever the channel count differs from the
group count, the tensor's unit dimensions do not match the loop range. -/
theorem mi_grouped_hist_shape_mismatch (estimatorType : String)
    (calcSigstats : Bool) (scaleOfOrganisation nChan soiGroups nEpo : ℕ)
    (hest : estimatorType = "histogram" ∨ estimatorType = "symbolic")
    (hscale : 1 < scaleOfOrganisation) (hne : nChan ≠ soiGroups) :
    (miMatrixShape estimatorType calcSigstats
        scaleOfOrganisation nChan soiGroups nEpo).1 = nChan ∧
    loopRange scaleOfOrganisation nChan soiGroups = soiGroups ∧
    (miMatrixShape estimatorType calcSigstats
        scaleOfOrganisation nChan soiGroups nEpo).1
      ≠ loopRange scaleOfOrganisation nChan soiGroups := by
  have hs1 : scaleOfOrganisation ≠ 1 := by omega
  have hshape : (miMatrixShape estimatorType calcSigstats
      scaleOfOrganisation nChan soiGroups nEpo).1 = nChan := by
    rcases hest with h | h <;> subst h <;> simp [miMatrixShape]
  have hloop : loopRange scaleOfOrganisation nChan soiGroups = soiGroups := by
    simp [loopRange, hs1]
  exact ⟨hshape, hloop, by rw [hshape, hloop]; exact hne⟩

/-- Witness for C10 at a concrete grouped configuration: 4 retained
channels arranged in 2 groups, histogram estimator. -/
theorem mi_grouped_hist_shape_mismatch_witness :
    (miMatrixShape "histogram" false 2 4 2 1).1 = 4 ∧
    loopRange 2 4 2 = 2 ∧
    (miMatrixShape "histogram" false 2 4 2 1).1 ≠ loopRange 2 4 2 :=
  mi_grouped_hist_shape_mismatch "histogram" false 2 4 2 1
    (Or.inl rfl) (by decide) (by decide)

/-- C5.  Intra-source construction with a single channel-label sequence:
the duplication step `self._channel_names = [self._channel_names] * 2`
stores two copies of the *wrapper* `[[names]]` rather than of the sequence
itself, so the subsequent per-side length check compares 1 (the wrapper's
length) against the channel count, and construction fails for 3-channel
intra-source data with `channel_names = [["C1", "C2", "C3"]]` — although
the constructor's docstring documents `[[channel_names_p1]]` as the
intra-brain input format and the evident intent is to duplicate the
sequence for both sides. -/
theorem intra_single_channel_names_rejected :
    checkChannelNames false
        (.list [.list [.str "C1", .str "C2", .str "C3"]]) 3
      = .error channelCountErrorMsg := by rfl

/-- If the conversion tail of the setter raises, the `_roi`, retained-data
and `n_chan` fields still hold what they held on entry. -/
theorem setRoiConvert_error_fields (s : RoiState) (half1 half2 : List RNode)
    (e : RoiError) (h : (setRoiConvert s half1 half2).1 = some e) :
    (setRoiConvert s half1 half2).2.roi = s.roi ∧
    (setRoiConvert s half1 half2).2.data1 = s.data1 ∧
    (setRoiConvert s half1 half2).2.data2 = s.data2 ∧
    (setRoiConvert s half1 half2).2.nChan = s.nChan := by
  unfold setRoiConvert at h ⊢
  cases hc1 : convertHalf s.channelNames1 half1 with
  | error e1 => simp [hc1]
  | ok idx1 =>
    cases hc2 : convertHalf s.channelNames2 half2 with
    | error e2 => simp [hc1, hc2]
    | ok idx2 =>
      rw [hc1] at h
      simp only at h
      rw [hc2] at h
      simp at h

/-- C3 counterexample: assigning the grouped ROI `[[1,2],[3]]` /
`[[4,5],[6]]` to a freshly constructed object raises the cardinality
error, yet the failed assignment has already mutated the group-count field
`_soi_groups` (besides setting `_roi_specified`): the ROI-related state
after the raise is not the prior state. -/
theorem roi_failed_assignment_mutates_group_count :
    (setRoi roiExampleState roiBadCardHalf1 roiBadCardHalf2).1
        = some .groupCardinality ∧
    (setRoi roiExampleState roiBadCardHalf1 roiBadCardHalf2).2.soiGroups
        ≠ roiExampleState.soiGroups := by decide

/-- C3 (amended).  When a ROI assignment fails, the error is raised before
`_roi`, the retained data and the channel count are touched, so those
fields keep their prior values; the bookkeeping fields written before the
failing check (`_roi_specified`, and depending on the error path
`_soi_groups`, `_scale_of_organisation`, `_initialise_parameter`,
`_channel_indices1`) may be left partially mutated. -/
theorem roi_failed_assignment_preserves_roi_and_data
    (s : RoiState) (half1 half2 : List RNode) (e : RoiError)
    (h : (setRoi s half1 half2).1 = some e) :
    (setRoi s half1 half2).2.roi = s.roi ∧
    (setRoi s half1 half2).2.data1 = s.data1 ∧
    (setRoi s half1 half2).2.data2 = s.data2 ∧
    (setRoi s half1 half2).2.nChan = s.nChan := by
  unfold setRoi at h ⊢
  by_cases c1 : (halfIsPointwise half1 && halfIsPointwise half2) = true
  · simp only [c1, if_true] at h ⊢
    exact setRoiConvert_error_fields _ half1 half2 e h
  · simp only [c1, if_false, Bool.not_eq_true] at h ⊢
    by_cases c2 : (halfIsGrouped half1 && halfIsGrouped half2) = true
    · simp only [c2, if_true] at h ⊢
      by_cases c3 : (half1.length == half2.length) = true
      · simp only [c3, if_true] at h ⊢
        cases hl : groupLens half1 half2 with
        | nil => simp [hl]
        | cons l ls =>
          simp only [hl] at h ⊢
          by_cases c4 : (ls.all (· == l)) = true
          · simp only [c4, if_true] at h ⊢
            exact setRoiConvert_error_fields _ half1 half2 e h
          · simp only [c4, if_false, Bool.not_eq_true] at h ⊢
            simp [c4]
      · simp [c3]
    · simp [c2]

/-- Witness for the amended C3 at the concrete failing assignment of the
counterexample. -/
theorem roi_failed_assignment_preserves_roi_and_data_witness :
    (setRoi roiExampleState roiBadCardHalf1 roiBadCardHalf2).2.roi
        = roiExampleState.roi ∧
    (setRoi roiExampleState roiBadCardHalf1 roiBadCardHalf2).2.data1
        = roiExampleState.data1 ∧
    (setRoi roiExampleState roiBadCardHalf1 roiBadCardHalf2).2.data2
        = roiExampleState.data2 ∧
    (setRoi roiExampleState roiBadCardHalf1 roiBadCardHalf2).2.nChan
        = roiExampleState.nChan :=
  roi_failed_assignment_preserves_roi_and_data roiExampleState
    roiBadCardHalf1 roiBadCardHalf2 .groupCardinality (by decide)

/-- C7.  For a grouped ROI (both halves nested lists of lists, not the
pointwise form): if the halves have the same number of groups but the
groups do not all share one cardinality, the setter raises the cardinality
error; if the halves have different numbers of groups, it raises the
group-count error. -/
theorem roi_grouped_mismatch_errors (s : RoiState) (half1 half2 : List RNode)
    (hg : (halfIsGrouped half1 && halfIsGrouped half2) = true)
    (hnp : ¬(halfIsPointwise half1 && halfIsPointwise half2) = true) :
    (∀ l ls, half1.length = half2.length →
      groupLens half1 half2 = l :: ls → (ls.all (· == l)) = false →
      (setRoi s half1 half2).1 = some .groupCardinality) ∧
    (half1.length ≠ half2.length →
      (setRoi s half1 half2).1 = some .groupCountMismatch) := by
  constructor
  · intro l ls hlen hl hcard
    simp [setRoi, hnp, hg, hlen, hl, hcard]
  · intro hlen
    simp [setRoi, hnp, hg, hlen]

/-- Witness for C7: the claim's own example `[[1,2],[3]]` vs `[[4,5],[6]]`
(cardinality error), and a 2-group vs 1-group ROI (group-count error). -/
theorem roi_grouped_mismatch_errors_witness :
    (setRoi roiExampleState roiBadCardHalf1 roiBadCardHalf2).1
        = some .groupCardinality ∧
    (setRoi roiExampleState [.group [.idx 0, .idx 1]]
        [.group [.idx 0], .group [.idx 1]]).1 = some .groupCountMismatch :=
  ⟨(roi_grouped_mismatch_errors roiExampleState roiBadCardHalf1 roiBadCardHalf2
      (by decide) (by decide)).1 2 [1, 2, 1] (by decide) (by decide) (by decide),
   (roi_grouped_mismatch_errors roiExampleState [.group [.idx 0, .idx 1]]
      [.group [.idx 0], .group [.idx 1]] (by decide) (by decide)).2 (by decide)⟩

/-- Folding pointwise-equal step functions gives equal results. -/
theorem foldl_congr_mem {β γ : Type*} (L : List γ) (f g : β → γ → β) (b : β)
    (h : ∀ x ∈ L, ∀ acc, f acc x = g acc x) : L.foldl f b = L.foldl g b := by
  induction L generalizing b with
  | nil => rfl
  | cons x L ih =>
    rw [List.foldl_cons, List.foldl_cons, h x (List.mem_cons_self x L)]
    exact ih _ fun y hy acc => h y (List.mem_cons_of_mem x hy) acc

/-- Indexing below the last element is unaffected by `dropLast`. -/
theorem getD_dropLast (l : List ℤ) (i : ℕ) (d : ℤ) (h : i < l.length - 1) :
    l.dropLast.getD i d = l.getD i d := by
  have h1 : i < l.dropLast.length := by
    rw [List.length_dropLast]
    exact h
  have h2 : i < l.length := by omega
  rw [List.getD_eq_getElem _ _ h1, List.getD_eq_getElem _ _ h2,
    List.getElem_dropLast]

/-- C9.  The symbolic estimator's count loop runs
`for i in range(len(symbol_hash_X) - 1)`, so the joint and marginal
distributions are built over exactly the first `N - 1` of the `N`
ordinal-pattern hash values: the tables equal those built over all hash
values of the inputs with their final element removed — the last embedded
window of every sequence is always excluded. -/
theorem symb_counts_exclude_last (hx hy : List ℤ)
    (h : hx.length = hy.length) :
    symbCounts hx hy = symbCountsAll hx.dropLast hy.dropLast := by
  unfold symbCounts symbCountsAll
  rw [List.length_dropLast]
  apply foldl_congr_mem
  intro i hi acc
  rw [List.mem_range] at hi
  unfold symbCountStep
  rw [getD_dropLast hx i 0 hi, getD_dropLast hy i 0 (by omega)]

/-- Witness for C9 on concrete three-window hash sequences. -/
theorem symb_counts_exclude_last_witness :
    symbCounts [1, 2, 3] [4, 5, 6]
      = symbCountsAll ([1, 2, 3].dropLast) ([4, 5, 6].dropLast) :=
  symb_counts_exclude_last [1, 2, 3] [4, 5, 6] rfl

theorem ptp_nil : ptp [] = 0 := by simp [ptp, listMax, listMin]

/-- A sequence with positive range and positive interquartile range yields
a per-sequence Freedman-Diaconis count of at least one. -/
theorem fdBinsOne_pos (X : List ℚ) (hp : 0 < ptp X) (hq : 0 < iqr X) :
    1 ≤ fdBinsOne X := by
  have hlen : 0 < X.length := by
    cases X with
    | nil => rw [ptp_nil] at hp; exact absurd hp (lt_irrefl 0)
    | cons a l => simp
  have hrpow : (0 : ℝ) < (X.length : ℝ) ^ (-(1 : ℝ) / 3) :=
    Real.rpow_pos_of_pos (by exact_mod_cast hlen) _
  have hiqr : (0 : ℝ) < (iqr X : ℝ) := by exact_mod_cast hq
  have hd : 0 < fdDenom X := by
    unfold fdDenom
    have h2 : (0 : ℝ) < 2 := by norm_num
    exact mul_pos (mul_pos h2 hiqr) hrpow
  have hptp : (0 : ℝ) < (ptp X : ℝ) := by exact_mod_cast hp
  have hdiv : (0 : ℝ) < (ptp X : ℝ) / fdDenom X := div_pos hptp hd
  exact Int.ceil_pos.mpr hdiv

/-- C6.  For every pair of input sequences with non-zero range and
non-zero interquartile range, `calc_fd_bins` returns a positive integer;
for a sequence with zero interquartile range, the divisor of the code's
unguarded division is exactly zero (nothing rejects or special-cases this
input before the division is evaluated). -/
theorem calc_fd_bins_pos_and_unguarded_zero_iqr :
    (∀ X Y : List ℚ, 0 < ptp X → 0 < ptp Y → 0 < iqr X → 0 < iqr Y →
      0 < calc_fd_bins X Y) ∧
    (∀ X : List ℚ, iqr X = 0 → fdDenom X = 0) := by
  constructor
  · intro X Y hpX hpY hqX hqY
    have hX := fdBinsOne_pos X hpX hqX
    have hY := fdBinsOne_pos Y hpY hqY
    have hXr : (1 : ℝ) ≤ (fdBinsOne X : ℝ) := by exact_mod_cast hX
    have hYr : (1 : ℝ) ≤ (fdBinsOne Y : ℝ) := by exact_mod_cast hY
    have hsum : (0 : ℝ) < ((fdBinsOne X : ℝ) + (fdBinsOne Y : ℝ)) / 2 := by
      linarith
    exact Int.ceil_pos.mpr hsum
  · intro X h
    unfold fdDenom
    rw [h]
    push_cast
    ring

theorem ptp_two_pos : (0 : ℚ) < ptp [0, 100] := by
  norm_num [ptp, listMax, listMin, max_def, min_def]

theorem iqr_two_pos : (0 : ℚ) < iqr [0, 100] := by
  norm_num [iqr, percentile, sortQ, insertSorted, List.getD]

theorem iqr_const_zero : iqr [1, 1, 1] = 0 := by
  norm_num [iqr, percentile, sortQ, insertSorted, List.getD]

/-- Witness for C6: a spread-out sequence gives a positive bin count, and
a constant sequence has a zero divisor. -/
theorem calc_fd_bins_pos_and_unguarded_zero_iqr_witness :
    0 < calc_fd_bins [0, 100] [0, 100] ∧ fdDenom [1, 1, 1] = 0 :=
  ⟨calc_fd_bins_pos_and_unguarded_zero_iqr.1 [0, 100] [0, 100]
      ptp_two_pos ptp_two_pos iqr_two_pos iqr_two_pos,
   calc_fd_bins_pos_and_unguarded_zero_iqr.2 [1, 1, 1] iqr_const_zero⟩

theorem calc_fd_bins_comm (X Y : List ℚ) :
    calc_fd_bins Y X = calc_fd_bins X Y := by
  unfold calc_fd_bins
  rw [add_comm]

/-- Swapping the arguments of `np.histogram2d` transposes the joint
histogram. -/
theorem jointHist_swap (X Y : List ℚ) (b i j : ℕ) :
    jointHist Y X b i j = jointHist X Y b j i := by
  unfold jointHist
  rw [← List.zip_swap X Y, List.countP_map]
  apply List.countP_congr
  intro p _
  cases p with
  | mk x y => simp [Bool.and_comm]

theorem jointTotal_swap (X Y : List ℚ) (b : ℕ) :
    jointTotal Y X b = jointTotal X Y b := by
  unfold jointTotal
  simp only [jointHist_swap]
  exact Finset.sum_comm

theorem pxy_swap (X Y : List ℚ) (b i j : ℕ) :
    pxy Y X b i j = pxy X Y b j i := by
  unfold pxy
  rw [jointHist_swap, jointTotal_swap]

theorem pxMarginal_swap (X Y : List ℚ) (b i : ℕ) :
    pxMarginal Y X b i = pyMarginal X Y b i := by
  unfold pxMarginal pyMarginal
  exact Finset.sum_congr rfl fun j _ => pxy_swap X Y b i j

theorem pyMarginal_swap (X Y : List ℚ) (b j : ℕ) :
    pyMarginal Y X b j = pxMarginal X Y b j := by
  unfold pxMarginal pyMarginal
  exact Finset.sum_congr rfl fun i _ => pxy_swap X Y b i j

theorem entX_swap (X Y : List ℚ) (b : ℕ) : entX Y X b = entY X Y b := by
  unfold entX entY
  congr 1
  exact Finset.sum_congr rfl fun i _ => by rw [pxMarginal_swap]

theorem entY_swap (X Y : List ℚ) (b : ℕ) : entY Y X b = entX X Y b := by
  unfold entX entY
  congr 1
  exact Finset.sum_congr rfl fun j _ => by rw [pyMarginal_swap]

theorem entXY_swap (X Y : List ℚ) (b : ℕ) : entXY Y X b = entXY X Y b := by
  unfold entXY
  congr 1
  simp only [pxy_swap]
  exact Finset.sum_comm

/-- C8.  The histogram MI estimator is symmetric in its two input
sequences, per epoch and over any epoch structure: the bin-count rule
averages the two per-sequence Freedman-Diaconis counts (symmetric), the
joint histogram transposes under argument swap, and the three-entropy
formula `H(X) + H(Y) - H(X,Y)` is argument-order independent. -/
theorem mi_hist_symmetric :
    (∀ X Y : List ℚ, miHistPair X Y = miHistPair Y X) ∧
    (∀ s1 s2 : List (List ℚ), miHist s1 s2 = miHist s2 s1) := by
  have hpair : ∀ X Y : List ℚ, miHistPair X Y = miHistPair Y X := by
    intro X Y
    unfold miHistPair
    rw [calc_fd_bins_comm X Y, entX_swap X Y, entY_swap X Y, entXY_swap X Y]
    ring
  refine ⟨hpair, fun s1 s2 => ?_⟩
  unfold miHist
  rw [← List.zip_swap s1 s2, List.map_map]
  apply List.map_congr_left
  intro p _
  cases p with
  | mk x y => exact hpair x y

end HyperIT
